import Mathlib

/-!
Verification of the cv-rs pixel-processing library (`src/image.rs`, `src/filters.rs`).

Modelling conventions:
* Rust panics (`assert_eq!`, `unimplemented!`, `panic!`, out-of-bounds indexing)
  are modelled by `Except PanicKind`, with one `PanicKind` per panic site class.
* `u8` samples are modelled as `ℕ`; every filter output is clamped to `[0,255]`
  by the code itself, and no claim depends on input bytes wrapping.
* `usize` is modelled as `ℕ` (no claim exercises overflow).
* The `f32` arithmetic inside `sobel_edge_detection` only ever produces integers
  of magnitude at most `255 * 8 = 2040 < 2^24`, and products of such integers
  with the kernel weights `{-2,-1,0,1,2}`; every intermediate `f32` value is an
  exactly representable integer, so the computation is modelled exactly by `Int`.
* The `f32` arithmetic inside `convolve_1d` / `gaussian_blur` is modelled by
  exact rational arithmetic (`ℚ`; every `f32` value is a rational), and the
  transcendental `exp` used by the Gaussian kernel is abstracted as an arbitrary
  function parameter `fexp : ℚ → ℚ`, so every theorem below holds for any
  implementation of `exp`.
* `for` loops writing into a pre-allocated `vec!` are modelled either by
  structural recursion on the remaining trip count (resize, whose source reads
  can panic) or, where every write hits each cell exactly once in row-major
  order and cannot panic, by directly generating the row-major list (`mkGrid`).
-/

/-- The classes of panics that occur in the source: `assert_eq!` in the `Image`
constructors, `unimplemented!` in `resize`, the explicit `panic!` calls in the
grayscale-only filters, and slice/index out-of-bounds panics. -/
inductive PanicKind where
  | InvalidArgument
  | Unimplemented
  | InvalidOperation
  | IndexOutOfBounds
deriving DecidableEq

/-- `enum Image` from `src/image.rs`: a tagged union of `Gray` and `Rgb`
row-major pixel buffers. -/
inductive Image where
  | Gray (width height : ℕ) (data : List ℕ)
  | Rgb (width height : ℕ) (data : List ℕ)
deriving DecidableEq

/-- `Image::gray`: `assert_eq!(data.len(), width * height)` then construct. -/
def Image.gray (width height : ℕ) (data : List ℕ) : Except PanicKind Image :=
  if data.length = width * height then .ok (.Gray width height data)
  else .error .InvalidArgument

/-- `Image::rgb`: `assert_eq!(data.len(), width * height * 3)` then construct. -/
def Image.rgb (width height : ℕ) (data : List ℕ) : Except PanicKind Image :=
  if data.length = width * height * 3 then .ok (.Rgb width height data)
  else .error .InvalidArgument

/-- `Image::width`. -/
def Image.width : Image → ℕ
  | .Gray w _ _ => w
  | .Rgb w _ _ => w

/-- `Image::height`. -/
def Image.height : Image → ℕ
  | .Gray _ h _ => h
  | .Rgb _ h _ => h

/-- `Image::data`. -/
def Image.data : Image → List ℕ
  | .Gray _ _ d => d
  | .Rgb _ _ d => d

/-- `enum ResizeBackend` from `src/filters.rs`. -/
inductive ResizeBackend where
  | Cpu
  | Simd
  | Gpu
deriving DecidableEq

/-- `enum ResizeAlgorithm` from `src/filters.rs`. -/
inductive ResizeAlgorithm where
  | Nearest
  | Bilinear
  | Bicubic
deriving DecidableEq

/-- Inner loop `for x in 0..new_width` of `resize_nearest_cpu`, `Gray` arm.
`x` is the current loop index, the extra `ℕ` argument is the remaining trip
count (the loop runs it down to `0`), so the recursion is structural.  Each
iteration reads `data[src_y * width + src_x]` (a read out of bounds is an index
panic) and writes `new_data[y * new_width + x]`. -/
def resizeGrayRow (w h nw nh : ℕ) (data : List ℕ) (y : ℕ) :
    ℕ → ℕ → List ℕ → Except PanicKind (List ℕ)
  | _, 0, nd => .ok nd
  | x, r + 1, nd =>
    match data[(y * h / nh) * w + x * w / nw]? with
    | some v => resizeGrayRow w h nw nh data y (x + 1) r (nd.set (y * nw + x) v)
    | none => .error .IndexOutOfBounds

/-- Outer loop `for y in 0..new_height` of `resize_nearest_cpu`, `Gray` arm. -/
def resizeGrayRows (w h nw nh : ℕ) (data : List ℕ) :
    ℕ → ℕ → List ℕ → Except PanicKind (List ℕ)
  | _, 0, nd => .ok nd
  | y, s + 1, nd =>
    match resizeGrayRow w h nw nh data y 0 nw nd with
    | .ok nd2 => resizeGrayRows w h nw nh data (y + 1) s nd2
    | .error e => .error e

/-- Inner loop of `resize_nearest_cpu`, `Rgb` arm.  The source computes
`src_idx = (src_y * width + src_x) * 3`, `dst_idx = (y * new_width + x) * 3`
and copies the 3-byte slice `data[src_idx..src_idx+3]` to
`new_data[dst_idx..dst_idx+3]`; the copy panics exactly when the source slice
is out of bounds, i.e. when any of the three reads below fails (the
destination slice is always inside the pre-allocated buffer). -/
def resizeRgbRow (w h nw nh : ℕ) (data : List ℕ) (y : ℕ) :
    ℕ → ℕ → List ℕ → Except PanicKind (List ℕ)
  | _, 0, nd => .ok nd
  | x, r + 1, nd =>
    match data[((y * h / nh) * w + x * w / nw) * 3]?,
          data[((y * h / nh) * w + x * w / nw) * 3 + 1]?,
          data[((y * h / nh) * w + x * w / nw) * 3 + 2]? with
    | some c0, some c1, some c2 =>
        resizeRgbRow w h nw nh data y (x + 1) r
          ((((nd.set ((y * nw + x) * 3) c0).set ((y * nw + x) * 3 + 1) c1).set
            ((y * nw + x) * 3 + 2) c2))
    | _, _, _ => .error .IndexOutOfBounds

/-- Outer loop of `resize_nearest_cpu`, `Rgb` arm. -/
def resizeRgbRows (w h nw nh : ℕ) (data : List ℕ) :
    ℕ → ℕ → List ℕ → Except PanicKind (List ℕ)
  | _, 0, nd => .ok nd
  | y, s + 1, nd =>
    match resizeRgbRow w h nw nh data y 0 nw nd with
    | .ok nd2 => resizeRgbRows w h nw nh data (y + 1) s nd2
    | .error e => .error e

/-- `resize_nearest_cpu` from `src/filters.rs`: allocate
`vec![0u8; new_width * new_height (* 3)]`, run the nested loops, then rebuild
through the checked constructor (`Image::gray` / `Image::rgb`). -/
def resize_nearest_cpu (img : Image) (nw nh : ℕ) : Except PanicKind Image :=
  match img with
  | .Gray w h data =>
    match resizeGrayRows w h nw nh data 0 nh (List.replicate (nw * nh) 0) with
    | .ok nd => Image.gray nw nh nd
    | .error e => .error e
  | .Rgb w h data =>
    match resizeRgbRows w h nw nh data 0 nh (List.replicate (nw * nh * 3) 0) with
    | .ok nd => Image.rgb nw nh nd
    | .error e => .error e

/-- `resize` from `src/filters.rs`: dispatch on `(backend, algorithm)`; every
combination except `(Cpu, Nearest)` is `unimplemented!`. -/
def resize (img : Image) (nw nh : ℕ) (backend : ResizeBackend)
    (algorithm : ResizeAlgorithm) : Except PanicKind Image :=
  match backend with
  | .Cpu =>
    match algorithm with
    | .Nearest => resize_nearest_cpu img nw nh
    | .Bilinear => .error .Unimplemented
    | .Bicubic => .error .Unimplemented
  | .Simd => .error .Unimplemented
  | .Gpu => .error .Unimplemented

/-- Row-major output buffer of a per-pixel computation: the source pattern
`let mut out = vec![0u8; width * height]; for y { for x { out[y*width+x] = f(x,y) } }`
writes every cell exactly once (the write index is always in bounds), so the
resulting buffer is exactly the row-major list of the `f x y`. -/
def mkGrid (w : ℕ) (f : ℕ → ℕ → ℕ) : ℕ → List ℕ
  | 0 => []
  | h + 1 => mkGrid w f h ++ (List.range w).map (fun x => f x h)

/-- The `gx` kernel array of `sobel_edge_detection`, read at `gx[ky * 3 + kx]`
(its `f32` entries are exact small integers). -/
def sobelGx (ky kx : ℕ) : Int :=
  ([-1, 0, 1, -2, 0, 2, -1, 0, 1] : List Int).getD (ky * 3 + kx) 0

/-- The `gy` kernel array of `sobel_edge_detection`, read at `gy[ky * 3 + kx]`. -/
def sobelGy (ky kx : ℕ) : Int :=
  ([-1, -2, -1, 0, 0, 0, 1, 2, 1] : List Int).getD (ky * 3 + kx) 0

/-- `x as isize + kx as isize - 1` (and the analogous `iy`). -/
def sobelIx (x kx : ℕ) : Int := (x : Int) + (kx : Int) - 1

/-- The two accumulators `(sx, sy)` of `sobel_edge_detection` for one output
pixel: fold over `ky, kx ∈ 0..3`, skipping taps whose source coordinate is
outside `[0, width) × [0, height)`.  Inside the bounds check the read
`data[iy as usize * width + ix as usize]` is within every validly-constructed
image's buffer, so it is modelled by `getD`.  All `f32` arithmetic here is
exact integer arithmetic (see header), modelled by `Int`. -/
def sobelAccum (w h : ℕ) (data : List ℕ) (x y : ℕ) : Int × Int :=
  (List.range 3).foldl (fun s ky =>
    (List.range 3).foldl (fun s kx =>
      if 0 ≤ sobelIx x kx ∧ sobelIx x kx < (w : Int) ∧
         0 ≤ sobelIx y ky ∧ sobelIx y ky < (h : Int) then
        (s.1 + ((data.getD ((sobelIx y ky).toNat * w + (sobelIx x kx).toNat) 0 : ℕ) : Int)
                 * sobelGx ky kx,
         s.2 + ((data.getD ((sobelIx y ky).toNat * w + (sobelIx x kx).toNat) 0 : ℕ) : Int)
                 * sobelGy ky kx)
      else s) s) ((0 : Int), (0 : Int))

/-- One output sample of `sobel_edge_detection`:
`let mag = sx.abs() + sy.abs(); out[y*width+x] = mag.min(255.0) as u8`
(`mag` is a nonnegative integer, so `as u8` is the identity on the result of
`min`). -/
def sobelPixel (w h : ℕ) (data : List ℕ) (x y : ℕ) : ℕ :=
  min ((sobelAccum w h data x y).1.natAbs + (sobelAccum w h data x y).2.natAbs) 255

/-- `sobel_edge_detection` from `src/filters.rs`: grayscale only (`panic!` on
`Rgb`), per-pixel Sobel magnitude, result rebuilt with `Image::gray`. -/
def sobel_edge_detection (img : Image) : Except PanicKind Image :=
  match img with
  | .Gray w h data => Image.gray w h (mkGrid w (fun x y => sobelPixel w h data x y) h)
  | .Rgb _ _ _ => .error .InvalidOperation

/-- `threshold_binary` from `src/filters.rs`: grayscale only (`panic!` on
`Rgb`); pushes `if v > thresh { maxval } else { 0 }` for each sample in order,
then rebuilds with `Image::gray`. -/
def threshold_binary (img : Image) (thresh maxval : ℕ) : Except PanicKind Image :=
  match img with
  | .Gray w h data =>
      Image.gray w h (data.map (fun v => if thresh < v then maxval else 0))
  | .Rgb _ _ _ => .error .InvalidOperation

/-- The tap coordinate `(ix, iy)` of `convolve_1d`:
`(x + i - k, y)` in the horizontal pass, `(x, y + i - k)` in the vertical one
(`isize` arithmetic). -/
def convIdx (horizontal : Bool) (x y : ℕ) (k : Int) (i : ℕ) : Int × Int :=
  if horizontal then ((x : Int) + (i : Int) - k, (y : Int))
  else ((x : Int), (y : Int) + (i : Int) - k)

/-- The accumulator `acc` of `convolve_1d` for one output sample:
`k = kernel.len() / 2`; fold over `i ∈ 0..kernel.len()`, adding
`data[iy * width + ix] as f32 * kernel[i]` only when
`ix >= 0 && iy >= 0 && ix < width && iy < height` (out-of-bounds taps are
skipped and nothing is renormalized).  `f32` values are modelled as exact
rationals; the guarded read is in bounds for every validly-constructed image,
so it is modelled by `getD`. -/
def convAcc (w h : ℕ) (data : List ℕ) (kernel : List ℚ) (horizontal : Bool)
    (x y : ℕ) : ℚ :=
  (List.range kernel.length).foldl (fun acc i =>
    if 0 ≤ (convIdx horizontal x y ((kernel.length : Int) / 2) i).1 ∧
       0 ≤ (convIdx horizontal x y ((kernel.length : Int) / 2) i).2 ∧
       (convIdx horizontal x y ((kernel.length : Int) / 2) i).1 < (w : Int) ∧
       (convIdx horizontal x y ((kernel.length : Int) / 2) i).2 < (h : Int) then
      acc + ((data.getD
          ((convIdx horizontal x y ((kernel.length : Int) / 2) i).2.toNat * w +
            (convIdx horizontal x y ((kernel.length : Int) / 2) i).1.toNat) 0 : ℕ) : ℚ)
          * kernel.getD i 0
    else acc) 0

/-- One output sample of `convolve_1d`:
`out[y * width + x] = acc.clamp(0.0, 255.0) as u8` — clamp to `[0, 255]`, then
truncate toward zero (= floor, the clamped value being nonnegative). -/
def convPixel (w h : ℕ) (data : List ℕ) (kernel : List ℚ) (horizontal : Bool)
    (x y : ℕ) : ℕ :=
  (Int.floor (min (max (convAcc w h data kernel horizontal x y) 0) 255)).toNat

/-- `convolve_1d` from `src/filters.rs`: grayscale only (`panic!` on `Rgb`);
per-sample 1-D convolution with skipped out-of-bounds taps, result rebuilt
with `Image::gray`. -/
def convolve_1d (img : Image) (kernel : List ℚ) (horizontal : Bool) :
    Except PanicKind Image :=
  match img with
  | .Gray w h data =>
      Image.gray w h (mkGrid w (fun x y => convPixel w h data kernel horizontal x y) h)
  | .Rgb _ _ _ => .error .InvalidOperation

/-- The unnormalized Gaussian kernel of `gaussian_blur`:
`k = ksize as isize / 2` and one entry `exp(-(i*i) / (2*sigma*sigma))` for each
`i in -k..=k` (hence `2*(ksize/2) + 1` entries).  The `f32` `exp` is abstracted
as the parameter `fexp`. -/
def gaussianRawKernel (fexp : ℚ → ℚ) (ksize : ℕ) (sigma : ℚ) : List ℚ :=
  (List.range (2 * (ksize / 2) + 1)).map (fun (j : ℕ) =>
    fexp (-(((((j : Int) - (ksize / 2 : ℕ)) * ((j : Int) - (ksize / 2 : ℕ))) : Int) : ℚ) /
      (2 * sigma * sigma)))

/-- The normalized Gaussian kernel of `gaussian_blur`: every entry divided by
the running sum of all entries. -/
def gaussianKernel (fexp : ℚ → ℚ) (ksize : ℕ) (sigma : ℚ) : List ℚ :=
  (gaussianRawKernel fexp ksize sigma).map
    (fun v => v / (gaussianRawKernel fexp ksize sigma).foldl (· + ·) 0)

/-- `gaussian_blur` from `src/filters.rs`: build the normalized kernel, then
two `convolve_1d` passes (horizontal, then vertical) with the same kernel. -/
def gaussian_blur (fexp : ℚ → ℚ) (img : Image) (ksize : ℕ) (sigma : ℚ) :
    Except PanicKind Image :=
  match convolve_1d img (gaussianKernel fexp ksize sigma) true with
  | .ok tmp => convolve_1d tmp (gaussianKernel fexp ksize sigma) false
  | .error e => .error e

/-! ### Helper lemmas -/

/-- Row-major index bound: `y * w + x < w * h` for `x < w`, `y < h`. -/
theorem grid_lt {x y w h : ℕ} (hx : x < w) (hy : y < h) : y * w + x < w * h := by
  have h1 : (y + 1) * w = y * w + w := Nat.succ_mul y w
  have h2 : (y + 1) * w ≤ h * w := Nat.mul_le_mul_right w hy
  have h3 : h * w = w * h := Nat.mul_comm h w
  omega

/-- The floor-mapped source coordinate is inside the source: `x * w / nw < w`. -/
theorem src_coord_lt {x w nw : ℕ} (hw : 0 < w) (hnw : 0 < nw) (hx : x < nw) :
    x * w / nw < w := by
  rw [Nat.div_lt_iff_lt_mul hnw]
  calc x * w < nw * w := (Nat.mul_lt_mul_right hw).mpr hx
  _ = w * nw := Nat.mul_comm nw w

/-- Reading any in-bounds position of a constant-valued buffer yields the
constant. -/
theorem getD_uniform {data : List ℕ} {c i : ℕ} (hu : ∀ v ∈ data, v = c)
    (hi : i < data.length) : data.getD i 0 = c := by
  rw [List.getD_eq_getElem?_getD, List.getElem?_eq_getElem hi]
  exact hu _ (List.getElem_mem hi)

theorem mkGrid_length (w : ℕ) (f : ℕ → ℕ → ℕ) : ∀ h, (mkGrid w f h).length = w * h := by
  intro h
  induction h with
  | zero => simp [mkGrid]
  | succ n ih =>
      simp only [mkGrid, List.length_append, ih, List.length_map, List.length_range]
      ring

theorem mkGrid_getElem? (w : ℕ) (f : ℕ → ℕ → ℕ) {x y : ℕ} (hx : x < w) :
    ∀ {h : ℕ}, y < h → (mkGrid w f h)[y * w + x]? = some (f x y) := by
  intro h
  induction h with
  | zero => omega
  | succ n ih =>
      intro hy
      by_cases hyn : y < n
      · rw [mkGrid, List.getElem?_append_left (by rw [mkGrid_length]; exact grid_lt hx hyn)]
        exact ih hyn
      · have hyeq : y = n := by omega
        subst hyeq
        have hcomm : w * y = y * w := Nat.mul_comm w y
        rw [mkGrid, List.getElem?_append_right (by rw [mkGrid_length]; omega)]
        rw [mkGrid_length]
        have hidx : y * w + x - w * y = x := by omega
        rw [hidx, List.getElem?_map, List.getElem?_range hx]
        rfl

/-- A skipping fold over `List.range` is the sum over the taps that pass the
test (with zero contribution from the skipped ones). -/
theorem foldl_ite_sum (cnd : ℕ → Prop) [DecidablePred cnd] (g : ℕ → ℚ) :
    ∀ (n : ℕ) (a : ℚ),
      (List.range n).foldl (fun acc i => if cnd i then acc + g i else acc) a
        = a + ∑ i ∈ Finset.range n, if cnd i then g i else 0 := by
  intro n
  induction n with
  | zero => intro a; simp
  | succ m ih =>
      intro a
      rw [List.range_succ, List.foldl_append, ih, Finset.sum_range_succ, List.foldl_cons,
        List.foldl_nil]
      by_cases hc : cnd m
      · rw [if_pos hc, if_pos hc]; ring
      · rw [if_neg hc, if_neg hc]; ring

/-! ### Claim theorems -/

/-- C2: for all `width`, `height` and every byte buffer `data`,
`Image::gray(width, height, data)` succeeds iff `data.length = width * height`
and `Image::rgb(width, height, data)` succeeds iff
`data.length = width * height * 3`; on mismatch each fails fatally with an
invalid-argument panic at construction time. -/
theorem image_constructors_validate (w h : ℕ) (data : List ℕ) :
    ((∃ img, Image.gray w h data = .ok img) ↔ data.length = w * h) ∧
    (data.length ≠ w * h → Image.gray w h data = .error .InvalidArgument) ∧
    ((∃ img, Image.rgb w h data = .ok img) ↔ data.length = w * h * 3) ∧
    (data.length ≠ w * h * 3 → Image.rgb w h data = .error .InvalidArgument) := by
  refine ⟨⟨fun hex => ?_, fun he => ⟨_, by rw [Image.gray, if_pos he]⟩⟩,
    fun hne => by rw [Image.gray, if_neg hne],
    ⟨fun hex => ?_, fun he => ⟨_, by rw [Image.rgb, if_pos he]⟩⟩,
    fun hne => by rw [Image.rgb, if_neg hne]⟩
  · obtain ⟨img, himg⟩ := hex
    by_contra hne
    rw [Image.gray, if_neg hne] at himg
    exact absurd himg (by simp)
  · obtain ⟨img, himg⟩ := hex
    by_contra hne
    rw [Image.rgb, if_neg hne] at himg
    exact absurd himg (by simp)

/-- Witness for C2: a matching gray buffer is accepted, a mismatched one is
rejected with the invalid-argument panic. -/
theorem image_constructors_validate_witness :
    (∃ img, Image.gray 2 3 [0, 1, 2, 3, 4, 5] = .ok img) ∧
    Image.gray 2 3 [0, 1] = .error .InvalidArgument ∧
    (∃ img, Image.rgb 1 2 [0, 1, 2, 3, 4, 5] = .ok img) ∧
    Image.rgb 1 2 [0, 1] = .error .InvalidArgument :=
  ⟨(image_constructors_validate 2 3 [0, 1, 2, 3, 4, 5]).1.mpr (by decide),
   (image_constructors_validate 2 3 [0, 1]).2.1 (by decide),
   (image_constructors_validate 1 2 [0, 1, 2, 3, 4, 5]).2.2.1.mpr (by decide),
   (image_constructors_validate 1 2 [0, 1]).2.2.2 (by decide)⟩

/-- C3: for every input image and target dimensions, `resize` with any
`(Backend, Algorithm)` pair other than `(Cpu, Nearest)` signals the
unsupported-capability (`unimplemented!`) failure and never returns a
result. -/
theorem resize_unimplemented_combinations (img : Image) (nw nh : ℕ)
    (b : ResizeBackend) (a : ResizeAlgorithm)
    (hba : ¬(b = .Cpu ∧ a = .Nearest)) :
    resize img nw nh b a = .error .Unimplemented := by
  cases b <;> cases a <;> first
    | rfl
    | exact absurd ⟨rfl, rfl⟩ hba

/-- Witness for C3: `(Simd, Nearest)` and `(Cpu, Bilinear)` both abort. -/
theorem resize_unimplemented_combinations_witness :
    resize (.Gray 2 2 [10, 20, 30, 40]) 4 4 .Simd .Nearest = .error .Unimplemented ∧
    resize (.Gray 2 2 [10, 20, 30, 40]) 4 4 .Cpu .Bilinear = .error .Unimplemented :=
  ⟨resize_unimplemented_combinations _ 4 4 .Simd .Nearest (by simp),
   resize_unimplemented_combinations _ 4 4 .Cpu .Bilinear (by simp)⟩

/-- C4: for every `Rgb` image and all parameter values, each grayscale-only
filter (`sobel_edge_detection`, `threshold_binary`, and the `gaussian_blur`
convolution passes) signals an invalid-operation panic and never computes an
output image; this holds for every kernel and every model of the `f32`
exponential. -/
theorem grayscale_filters_reject_rgb (w h : ℕ) (data : List ℕ)
    (thresh maxval : ℕ) (kernel : List ℚ) (horizontal : Bool)
    (fexp : ℚ → ℚ) (ksize : ℕ) (sigma : ℚ) :
    sobel_edge_detection (.Rgb w h data) = .error .InvalidOperation ∧
    threshold_binary (.Rgb w h data) thresh maxval = .error .InvalidOperation ∧
    convolve_1d (.Rgb w h data) kernel horizontal = .error .InvalidOperation ∧
    gaussian_blur fexp (.Rgb w h data) ksize sigma = .error .InvalidOperation :=
  ⟨rfl, rfl, rfl, rfl⟩

/-- C8: for every `Gray` image and all bytes `thresh`, `maxval`,
`threshold_binary` returns an image of identical dimensions in which each
output sample is `maxval` exactly when the corresponding input sample `v`
satisfies `v > thresh` (strict) and `0` otherwise; in particular on the 2×2
image `[10,200,30,250]` with `thresh = 100`, `maxval = 255` it yields exactly
`[0,255,0,255]`. -/
theorem threshold_binary_correct (w h : ℕ) (data : List ℕ) (thresh maxval : ℕ)
    (hd : data.length = w * h) :
    (∃ out, threshold_binary (.Gray w h data) thresh maxval = .ok (.Gray w h out) ∧
      out.length = w * h ∧
      ∀ i : ℕ, out[i]? = (data[i]?).map (fun v => if thresh < v then maxval else 0)) ∧
    threshold_binary (.Gray 2 2 [10, 200, 30, 250]) 100 255 =
      .ok (.Gray 2 2 [0, 255, 0, 255]) := by
  constructor
  · refine ⟨data.map (fun v => if thresh < v then maxval else 0), ?_, ?_, ?_⟩
    · rw [threshold_binary, Image.gray, if_pos (by rw [List.length_map, hd])]
    · rw [List.length_map, hd]
    · intro i
      exact List.getElem?_map _ data i
  · rfl

/-- Witness for C8 on the concrete 2×2 scenario from the spec. -/
theorem threshold_binary_correct_witness :
    ∃ out, threshold_binary (.Gray 2 2 [10, 200, 30, 250]) 100 255 =
        .ok (.Gray 2 2 out) ∧
      out[1 * 2 + 1]? = some 255 := by
  obtain ⟨out, h1, _, h3⟩ :=
    (threshold_binary_correct 2 2 [10, 200, 30, 250] 100 255 rfl).1
  exact ⟨out, h1, by rw [h3]; rfl⟩

/-- Invariant of the `Gray` inner resize loop: starting at column `x` with
`r = nw - x` iterations left, the loop succeeds (all its source reads are in
bounds), leaves every cell outside `row y`, columns `[x, nw)` untouched, and
fills cell `(x', y)` with the floor-mapped source sample for `x ≤ x' < nw`. -/
theorem resizeGrayRow_spec (w h nw nh : ℕ) (data : List ℕ) (y : ℕ)
    (hw : 0 < w) (hh : 0 < h) (hnw : 0 < nw) (hnh : 0 < nh)
    (hd : data.length = w * h) (hy : y < nh) :
    ∀ (r x : ℕ) (nd : List ℕ), x + r = nw → nd.length = nw * nh →
      ∃ nd', resizeGrayRow w h nw nh data y x r nd = .ok nd' ∧
        nd'.length = nw * nh ∧
        (∀ j, j < y * nw + x ∨ y * nw + nw ≤ j → nd'[j]? = nd[j]?) ∧
        (∀ x', x ≤ x' → x' < nw →
          nd'[y * nw + x']? = data[(y * h / nh) * w + x' * w / nw]?) := by
  intro r
  induction r with
  | zero =>
      intro x nd hxr hnd
      exact ⟨nd, rfl, hnd, fun j _ => rfl,
        fun x' hx1 hx2 => absurd (hx1.trans_lt hx2) (by omega)⟩
  | succ m ih =>
      intro x nd hxr hnd
      have hxlt : x < nw := by omega
      have hidx : (y * h / nh) * w + x * w / nw < data.length := by
        rw [hd]; exact grid_lt (src_coord_lt hw hnw hxlt) (src_coord_lt hh hnh hy)
      obtain ⟨v, hv⟩ : ∃ v, data[(y * h / nh) * w + x * w / nw]? = some v :=
        ⟨_, List.getElem?_eq_getElem hidx⟩
      obtain ⟨nd', hrun, hlen, hframe, hfill⟩ :=
        ih (x + 1) (nd.set (y * nw + x) v) (by omega) (by rw [List.length_set]; exact hnd)
      refine ⟨nd', ?_, hlen, ?_, ?_⟩
      · rw [resizeGrayRow, hv]
        exact hrun
      · intro j hj
        rw [hframe j (by omega), List.getElem?_set_ne (by omega)]
      · intro x' hx1 hx2
        rcases Nat.eq_or_lt_of_le hx1 with heq | hlt
        · subst heq
          calc nd'[y * nw + x]? = (nd.set (y * nw + x) v)[y * nw + x]? :=
                hframe _ (Or.inl (by omega))
          _ = some v := List.getElem?_set_self (by rw [hnd]; exact grid_lt hxlt hy)
          _ = data[(y * h / nh) * w + x * w / nw]? := hv.symm
        · exact hfill x' hlt hx2

/-- Invariant of the `Gray` outer resize loop: starting at row `y` with
`s = nh - y` iterations left, the loop succeeds, leaves rows `< y` untouched,
and fills every cell of rows `[y, nh)` with its floor-mapped source sample. -/
theorem resizeGrayRows_spec (w h nw nh : ℕ) (data : List ℕ)
    (hw : 0 < w) (hh : 0 < h) (hnw : 0 < nw) (hnh : 0 < nh)
    (hd : data.length = w * h) :
    ∀ (s y : ℕ) (nd : List ℕ), y + s = nh → nd.length = nw * nh →
      ∃ nd', resizeGrayRows w h nw nh data y s nd = .ok nd' ∧
        nd'.length = nw * nh ∧
        (∀ j, j < y * nw → nd'[j]? = nd[j]?) ∧
        (∀ x' y', y ≤ y' → y' < nh → x' < nw →
          nd'[y' * nw + x']? = data[(y' * h / nh) * w + x' * w / nw]?) := by
  intro s
  induction s with
  | zero =>
      intro y nd hys hnd
      exact ⟨nd, rfl, hnd, fun j _ => rfl,
        fun x' y' h1 h2 _ => absurd (h1.trans_lt h2) (by omega)⟩
  | succ m ih =>
      intro y nd hys hnd
      obtain ⟨nd1, hrun1, hlen1, hframe1, hfill1⟩ :=
        resizeGrayRow_spec w h nw nh data y hw hh hnw hnh hd (by omega) nw 0 nd
          (by omega) hnd
      obtain ⟨nd', hrun2, hlen2, hframe2, hfill2⟩ := ih (y + 1) nd1 (by omega) hlen1
      have hsm : (y + 1) * nw = y * nw + nw := Nat.succ_mul y nw
      refine ⟨nd', ?_, hlen2, ?_, ?_⟩
      · rw [resizeGrayRows, hrun1]
        exact hrun2
      · intro j hj
        rw [hframe2 j (by omega), hframe1 j (Or.inl (by omega))]
      · intro x' y' hy1 hy2 hx'
        rcases Nat.eq_or_lt_of_le hy1 with heq | hlt
        · subst heq
          rw [hframe2 _ (by omega), hfill1 x' (Nat.zero_le _) hx']
        · exact hfill2 x' y' hlt hy2 hx'

/-- Invariant of the `Rgb` inner resize loop (3-byte channel runs): same
shape as `resizeGrayRow_spec` with every index scaled by 3. -/
theorem resizeRgbRow_spec (w h nw nh : ℕ) (data : List ℕ) (y : ℕ)
    (hw : 0 < w) (hh : 0 < h) (hnw : 0 < nw) (hnh : 0 < nh)
    (hd : data.length = w * h * 3) (hy : y < nh) :
    ∀ (r x : ℕ) (nd : List ℕ), x + r = nw → nd.length = nw * nh * 3 →
      ∃ nd', resizeRgbRow w h nw nh data y x r nd = .ok nd' ∧
        nd'.length = nw * nh * 3 ∧
        (∀ j, j < (y * nw + x) * 3 ∨ (y * nw + nw) * 3 ≤ j → nd'[j]? = nd[j]?) ∧
        (∀ x' c, x ≤ x' → x' < nw → c < 3 →
          nd'[(y * nw + x') * 3 + c]? =
            data[((y * h / nh) * w + x' * w / nw) * 3 + c]?) := by
  intro r
  induction r with
  | zero =>
      intro x nd hxr hnd
      exact ⟨nd, rfl, hnd, fun j _ => rfl,
        fun x' c hx1 hx2 _ => absurd (hx1.trans_lt hx2) (by omega)⟩
  | succ m ih =>
      intro x nd hxr hnd
      have hxlt : x < nw := by omega
      have hsrc : (y * h / nh) * w + x * w / nw < w * h := by
        exact grid_lt (src_coord_lt hw hnw hxlt) (src_coord_lt hh hnh hy)
      have hidx : ∀ c, c < 3 → ((y * h / nh) * w + x * w / nw) * 3 + c < data.length := by
        intro c hc
        rw [hd]
        omega
      obtain ⟨v0, hv0⟩ : ∃ v, data[((y * h / nh) * w + x * w / nw) * 3]? = some v :=
        ⟨_, List.getElem?_eq_getElem (by have := hidx 0 (by omega); omega)⟩
      obtain ⟨v1, hv1⟩ : ∃ v, data[((y * h / nh) * w + x * w / nw) * 3 + 1]? = some v :=
        ⟨_, List.getElem?_eq_getElem (hidx 1 (by omega))⟩
      obtain ⟨v2, hv2⟩ : ∃ v, data[((y * h / nh) * w + x * w / nw) * 3 + 2]? = some v :=
        ⟨_, List.getElem?_eq_getElem (hidx 2 (by omega))⟩
      have hdst : y * nw + x < nw * nh := grid_lt hxlt hy
      obtain ⟨nd', hrun, hlen, hframe, hfill⟩ :=
        ih (x + 1)
          (((nd.set ((y * nw + x) * 3) v0).set ((y * nw + x) * 3 + 1) v1).set
            ((y * nw + x) * 3 + 2) v2)
          (by omega) (by simp only [List.length_set]; exact hnd)
      refine ⟨nd', ?_, hlen, ?_, ?_⟩
      · rw [resizeRgbRow, hv0, hv1, hv2]
        exact hrun
      · intro j hj
        rw [hframe j (by omega), List.getElem?_set_ne (by omega),
          List.getElem?_set_ne (by omega), List.getElem?_set_ne (by omega)]
      · intro x' c hx1 hx2 hc
        rcases Nat.eq_or_lt_of_le hx1 with heq | hlt
        · subst heq
          have hju : (y * nw + x) * 3 + c < (y * nw + (x + 1)) * 3 := by omega
          rw [hframe _ (Or.inl hju)]
          have hc3 : c = 0 ∨ c = 1 ∨ c = 2 := by omega
          rcases hc3 with rfl | rfl | rfl
          · rw [List.getElem?_set_ne (by omega), List.getElem?_set_ne (by omega)]
            calc (nd.set ((y * nw + x) * 3) v0)[(y * nw + x) * 3 + 0]? =
                  (nd.set ((y * nw + x) * 3) v0)[(y * nw + x) * 3]? := by
                    rw [Nat.add_zero]
            _ = some v0 := List.getElem?_set_self (by rw [hnd]; omega)
            _ = data[((y * h / nh) * w + x * w / nw) * 3 + 0]? := by
                  rw [Nat.add_zero]; exact hv0.symm
          · rw [List.getElem?_set_ne (by omega)]
            calc (((nd.set ((y * nw + x) * 3) v0).set ((y * nw + x) * 3 + 1) v1))[(y * nw + x) * 3 + 1]? =
                some v1 := List.getElem?_set_self (by simp only [List.length_set]; rw [hnd]; omega)
            _ = data[((y * h / nh) * w + x * w / nw) * 3 + 1]? := hv1.symm
          · calc ((((nd.set ((y * nw + x) * 3) v0).set ((y * nw + x) * 3 + 1) v1).set
                  ((y * nw + x) * 3 + 2) v2))[(y * nw + x) * 3 + 2]? =
                some v2 := List.getElem?_set_self (by simp only [List.length_set]; rw [hnd]; omega)
            _ = data[((y * h / nh) * w + x * w / nw) * 3 + 2]? := hv2.symm
        · exact hfill x' c hlt hx2 hc

/-- Invariant of the `Rgb` outer resize loop. -/
theorem resizeRgbRows_spec (w h nw nh : ℕ) (data : List ℕ)
    (hw : 0 < w) (hh : 0 < h) (hnw : 0 < nw) (hnh : 0 < nh)
    (hd : data.length = w * h * 3) :
    ∀ (s y : ℕ) (nd : List ℕ), y + s = nh → nd.length = nw * nh * 3 →
      ∃ nd', resizeRgbRows w h nw nh data y s nd = .ok nd' ∧
        nd'.length = nw * nh * 3 ∧
        (∀ j, j < y * nw * 3 → nd'[j]? = nd[j]?) ∧
        (∀ x' y' c, y ≤ y' → y' < nh → x' < nw → c < 3 →
          nd'[(y' * nw + x') * 3 + c]? =
            data[((y' * h / nh) * w + x' * w / nw) * 3 + c]?) := by
  intro s
  induction s with
  | zero =>
      intro y nd hys hnd
      exact ⟨nd, rfl, hnd, fun j _ => rfl,
        fun x' y' c h1 h2 _ _ => absurd (h1.trans_lt h2) (by omega)⟩
  | succ m ih =>
      intro y nd hys hnd
      obtain ⟨nd1, hrun1, hlen1, hframe1, hfill1⟩ :=
        resizeRgbRow_spec w h nw nh data y hw hh hnw hnh hd (by omega) nw 0 nd
          (by omega) hnd
      obtain ⟨nd', hrun2, hlen2, hframe2, hfill2⟩ := ih (y + 1) nd1 (by omega) hlen1
      have hsm : (y + 1) * nw = y * nw + nw := Nat.succ_mul y nw
      refine ⟨nd', ?_, hlen2, ?_, ?_⟩
      · rw [resizeRgbRows, hrun1]
        exact hrun2
      · intro j hj
        rw [hframe2 j (by omega), hframe1 j (Or.inl (by omega))]
      · intro x' y' c hy1 hy2 hx' hc
        rcases Nat.eq_or_lt_of_le hy1 with heq | hlt
        · subst heq
          rw [hframe2 _ (by omega), hfill1 x' c (Nat.zero_le _) hx' hc]
        · exact hfill2 x' y' c hlt hy2 hx' hc

/-- C1: for every `Image` (`Gray` or `Rgb`) with nonzero dimensions and every
nonzero target `new_width`, `new_height`, `resize` with `(Cpu, Nearest)`
returns an image of the target dimensions in which destination pixel `(x, y)`
holds the source pixel at `src_x = x * width / new_width`,
`src_y = y * height / new_height` (floor division) — one byte at row-major
offset `y * new_width + x` for `Gray`, the contiguous 3-byte channel run at
offset `(y * new_width + x) * 3` for `Rgb`. -/
theorem resize_nearest_cpu_correct (w h nw nh : ℕ)
    (hw : 0 < w) (hh : 0 < h) (hnw : 0 < nw) (hnh : 0 < nh) :
    (∀ data : List ℕ, data.length = w * h →
      ∃ nd, resize (.Gray w h data) nw nh .Cpu .Nearest = .ok (.Gray nw nh nd) ∧
        nd.length = nw * nh ∧
        ∀ x y, x < nw → y < nh →
          nd[y * nw + x]? = data[(y * h / nh) * w + x * w / nw]?) ∧
    (∀ data : List ℕ, data.length = w * h * 3 →
      ∃ nd, resize (.Rgb w h data) nw nh .Cpu .Nearest = .ok (.Rgb nw nh nd) ∧
        nd.length = nw * nh * 3 ∧
        ∀ x y c, x < nw → y < nh → c < 3 →
          nd[(y * nw + x) * 3 + c]? =
            data[((y * h / nh) * w + x * w / nw) * 3 + c]?) := by
  constructor
  · intro data hd
    obtain ⟨nd, hrun, hlen, _, hfill⟩ :=
      resizeGrayRows_spec w h nw nh data hw hh hnw hnh hd nh 0
        (List.replicate (nw * nh) 0) (by omega) (List.length_replicate _ _)
    refine ⟨nd, ?_, hlen, fun x y hx hy => hfill x y (Nat.zero_le _) hy hx⟩
    show resize_nearest_cpu (.Gray w h data) nw nh = _
    rw [resize_nearest_cpu, hrun]
    exact if_pos hlen
  · intro data hd
    obtain ⟨nd, hrun, hlen, _, hfill⟩ :=
      resizeRgbRows_spec w h nw nh data hw hh hnw hnh hd nh 0
        (List.replicate (nw * nh * 3) 0) (by omega) (List.length_replicate _ _)
    refine ⟨nd, ?_, hlen, fun x y c hx hy hc => hfill x y c (Nat.zero_le _) hy hx hc⟩
    show resize_nearest_cpu (.Rgb w h data) nw nh = _
    rw [resize_nearest_cpu, hrun]
    exact if_pos hlen

/-- Witness for C1: a 2×2 gray image resized to 4×4 and a 1×1 RGB image
resized to 2×2, with one destination pixel of each inspected via the
theorem. -/
theorem resize_nearest_cpu_correct_witness :
    (∃ nd, resize (.Gray 2 2 [10, 20, 30, 40]) 4 4 .Cpu .Nearest =
        .ok (.Gray 4 4 nd) ∧
      nd[1 * 4 + 2]? = [10, 20, 30, 40][(1 * 2 / 4) * 2 + 2 * 2 / 4]?) ∧
    (∃ nd, resize (.Rgb 1 1 [5, 6, 7]) 2 2 .Cpu .Nearest = .ok (.Rgb 2 2 nd) ∧
      nd[(1 * 2 + 1) * 3 + 2]? = [5, 6, 7][((1 * 1 / 2) * 1 + 1 * 1 / 2) * 3 + 2]?) := by
  constructor
  · obtain ⟨nd, h1, _, h3⟩ :=
      (resize_nearest_cpu_correct 2 2 4 4 (by decide) (by decide) (by decide)
        (by decide)).1 [10, 20, 30, 40] rfl
    exact ⟨nd, h1, h3 2 1 (by decide) (by decide)⟩
  · obtain ⟨nd, h1, _, h3⟩ :=
      (resize_nearest_cpu_correct 1 1 2 2 (by decide) (by decide) (by decide)
        (by decide)).2 [5, 6, 7] rfl
    exact ⟨nd, h1, h3 1 1 2 (by decide) (by decide) (by decide)⟩

/-- With target width `0` the inner loop body never runs, so the outer `Gray`
loop returns its buffer unchanged — in particular no division by
`new_width` is ever evaluated. -/
theorem resizeGrayRows_zero_nw (w h nh : ℕ) (data : List ℕ) :
    ∀ (s y : ℕ) (nd : List ℕ), resizeGrayRows w h 0 nh data y s nd = .ok nd := by
  intro s
  induction s with
  | zero => intro y nd; rfl
  | succ m ih => intro y nd; exact ih (y + 1) nd

/-- With target width `0` the inner loop body never runs, `Rgb` arm. -/
theorem resizeRgbRows_zero_nw (w h nh : ℕ) (data : List ℕ) :
    ∀ (s y : ℕ) (nd : List ℕ), resizeRgbRows w h 0 nh data y s nd = .ok nd := by
  intro s
  induction s with
  | zero => intro y nd; rfl
  | succ m ih => intro y nd; exact ih (y + 1) nd

/-- Counterexample to C6 as stated: resizing a valid 2×2 gray image with
`(Cpu, Nearest)` to target width `0` does NOT fail — it returns the empty
`0×5` image (the loop bodies containing the divisions never execute). -/
theorem resize_zero_target_counterexample :
    resize (.Gray 2 2 [10, 20, 30, 40]) 0 5 .Cpu .Nearest = .ok (.Gray 0 5 []) := rfl

/-- C6 (amended): for every source image, `resize` with `(Cpu, Nearest)` and a
target `new_width` of zero or `new_height` of zero succeeds, returning a
same-format image with the requested (degenerate) dimensions and an empty
buffer; the divisions by zero in the loop body are never executed because the
loops are empty. -/
theorem resize_zero_target_ok (w h : ℕ) (data : List ℕ) (nw nh : ℕ)
    (hz : nw = 0 ∨ nh = 0) :
    resize (.Gray w h data) nw nh .Cpu .Nearest = .ok (.Gray nw nh []) ∧
    resize (.Rgb w h data) nw nh .Cpu .Nearest = .ok (.Rgb nw nh []) := by
  have hzz : nw * nh = 0 := by rcases hz with h0 | h0 <;> simp [h0]
  have hrep : List.replicate (nw * nh) (0 : ℕ) = [] := by rw [hzz]; rfl
  have hrep3 : List.replicate (nw * nh * 3) (0 : ℕ) = [] := by rw [hzz]; rfl
  have hrowsG : resizeGrayRows w h nw nh data 0 nh [] = .ok [] := by
    rcases hz with h0 | h0
    · subst h0; exact resizeGrayRows_zero_nw w h nh data nh 0 []
    · subst h0; rfl
  have hrowsR : resizeRgbRows w h nw nh data 0 nh [] = .ok [] := by
    rcases hz with h0 | h0
    · subst h0; exact resizeRgbRows_zero_nw w h nh data nh 0 []
    · subst h0; rfl
  constructor
  · show resize_nearest_cpu (.Gray w h data) nw nh = _
    rw [resize_nearest_cpu, hrep, hrowsG]
    exact if_pos (by simp [hzz])
  · show resize_nearest_cpu (.Rgb w h data) nw nh = _
    rw [resize_nearest_cpu, hrep3, hrowsR]
    exact if_pos (by simp [hzz])

/-- Witness for C6 (amended) at target size `0×5` for both formats. -/
theorem resize_zero_target_ok_witness :
    resize (.Gray 2 2 [10, 20, 30, 40]) 0 5 .Cpu .Nearest = .ok (.Gray 0 5 []) ∧
    resize (.Rgb 2 2 (List.replicate 12 9)) 0 5 .Cpu .Nearest = .ok (.Rgb 0 5 []) :=
  ⟨(resize_zero_target_ok 2 2 [10, 20, 30, 40] 0 5 (Or.inl rfl)).1,
   (resize_zero_target_ok 2 2 (List.replicate 12 9) 0 5 (Or.inl rfl)).2⟩

/-- A per-pixel output grid over a degenerate (zero-area) image is empty. -/
theorem mkGrid_eq_nil (w h : ℕ) (f : ℕ → ℕ → ℕ) (hz : w * h = 0) :
    mkGrid w f h = [] :=
  List.eq_nil_of_length_eq_zero (by rw [mkGrid_length]; omega)

/-- Counterexample to C7 as stated: resizing the valid empty `0×0` gray image
with `(Cpu, Nearest)` to the nonzero target `1×1` does NOT succeed with an
empty output — the very first source read `data[0]` is out of bounds and the
call panics. -/
theorem resize_empty_source_counterexample :
    resize (.Gray 0 0 []) 1 1 .Cpu .Nearest = .error .IndexOutOfBounds := rfl

/-- C7 (amended): for every valid `Gray` image with `width = 0` or
`height = 0` (hence an empty buffer), `sobel_edge_detection`,
`threshold_binary`, the convolution passes and `gaussian_blur` all succeed
and produce a degenerate output with an empty pixel buffer; `resize` with
`(Cpu, Nearest)`, however, fails with an index-out-of-bounds panic whenever
both target dimensions are nonzero (for either pixel format), because every
source read of the nearest-neighbor loop hits the empty buffer. -/
theorem zero_dimension_filters (w h : ℕ) (data : List ℕ)
    (hz : w = 0 ∨ h = 0) (hd : data.length = w * h) :
    sobel_edge_detection (.Gray w h data) = .ok (.Gray w h []) ∧
    (∀ thresh maxval,
      threshold_binary (.Gray w h data) thresh maxval = .ok (.Gray w h [])) ∧
    (∀ (kernel : List ℚ) (horizontal : Bool),
      convolve_1d (.Gray w h data) kernel horizontal = .ok (.Gray w h [])) ∧
    (∀ (fexp : ℚ → ℚ) (ksize : ℕ) (sigma : ℚ),
      gaussian_blur fexp (.Gray w h data) ksize sigma = .ok (.Gray w h [])) ∧
    (∀ nw nh : ℕ, 0 < nw → 0 < nh →
      resize (.Gray w h data) nw nh .Cpu .Nearest = .error .IndexOutOfBounds ∧
      resize (.Rgb w h data) nw nh .Cpu .Nearest = .error .IndexOutOfBounds) := by
  have hz0 : w * h = 0 := by rcases hz with h0 | h0 <;> simp [h0]
  have hdnil : data = [] := List.eq_nil_of_length_eq_zero (by omega)
  subst hdnil
  have hconv : ∀ (kernel : List ℚ) (horizontal : Bool),
      convolve_1d (.Gray w h []) kernel horizontal = .ok (.Gray w h []) := by
    intro kernel horizontal
    rw [convolve_1d, mkGrid_eq_nil w h _ hz0]
    exact if_pos (by simp [hz0])
  refine ⟨?_, ?_, hconv, ?_, ?_⟩
  · rw [sobel_edge_detection, mkGrid_eq_nil w h _ hz0]
    exact if_pos (by simp [hz0])
  · intro thresh maxval
    rw [threshold_binary, List.map_nil]
    exact if_pos (by simp [hz0])
  · intro fexp ksize sigma
    rw [gaussian_blur, hconv]
    exact hconv _ false
  · intro nw nh hnw hnh
    obtain ⟨r, rfl⟩ := Nat.exists_eq_succ_of_ne_zero (by omega : nw ≠ 0)
    obtain ⟨s, rfl⟩ := Nat.exists_eq_succ_of_ne_zero (by omega : nh ≠ 0)
    exact ⟨rfl, rfl⟩

/-- Witness for C7 (amended) on the valid `0×3` gray image. -/
theorem zero_dimension_filters_witness :
    sobel_edge_detection (.Gray 0 3 []) = .ok (.Gray 0 3 []) ∧
    threshold_binary (.Gray 0 3 []) 100 255 = .ok (.Gray 0 3 []) ∧
    gaussian_blur (fun _ => 1) (.Gray 0 3 []) 3 1 = .ok (.Gray 0 3 []) ∧
    resize (.Gray 0 3 []) 2 2 .Cpu .Nearest = .error .IndexOutOfBounds := by
  obtain ⟨h1, h2, _, h4, h5⟩ := zero_dimension_filters 0 3 [] (Or.inl rfl) rfl
  exact ⟨h1, h2 100 255, h4 (fun _ => 1) 3 1,
    (h5 2 2 (by decide) (by decide)).1⟩

/-- At an interior pixel of a uniform-intensity image all nine Sobel taps are
in bounds, so both gradient accumulators telescope to zero. -/
theorem sobelPixel_uniform_interior (w h c : ℕ) (data : List ℕ)
    (hd : data.length = w * h) (hu : ∀ v ∈ data, v = c)
    (x y : ℕ) (hx1 : 1 ≤ x) (hx2 : x + 1 < w) (hy1 : 1 ≤ y) (hy2 : y + 1 < h) :
    sobelPixel w h data x y = 0 := by
  have hread : ∀ kx ky : ℕ, kx < 3 → ky < 3 →
      data.getD ((sobelIx y ky).toNat * w + (sobelIx x kx).toNat) 0 = c := by
    intro kx ky hkx hky
    apply getD_uniform hu
    rw [hd]
    apply grid_lt
    · simp only [sobelIx]; omega
    · simp only [sobelIx]; omega
  have hcond : ∀ kx ky : ℕ, kx < 3 → ky < 3 →
      0 ≤ sobelIx x kx ∧ sobelIx x kx < (w : Int) ∧
      0 ≤ sobelIx y ky ∧ sobelIx y ky < (h : Int) := by
    intro kx ky hkx hky
    simp only [sobelIx]
    omega
  unfold sobelPixel sobelAccum
  rw [show List.range 3 = [0, 1, 2] by decide]
  simp only [List.foldl_cons, List.foldl_nil]
  rw [if_pos (hcond 0 0 (by omega) (by omega)), if_pos (hcond 1 0 (by omega) (by omega)),
    if_pos (hcond 2 0 (by omega) (by omega)), if_pos (hcond 0 1 (by omega) (by omega)),
    if_pos (hcond 1 1 (by omega) (by omega)), if_pos (hcond 2 1 (by omega) (by omega)),
    if_pos (hcond 0 2 (by omega) (by omega)), if_pos (hcond 1 2 (by omega) (by omega)),
    if_pos (hcond 2 2 (by omega) (by omega))]
  rw [hread 0 0 (by omega) (by omega), hread 1 0 (by omega) (by omega),
    hread 2 0 (by omega) (by omega), hread 0 1 (by omega) (by omega),
    hread 1 1 (by omega) (by omega), hread 2 1 (by omega) (by omega),
    hread 0 2 (by omega) (by omega), hread 1 2 (by omega) (by omega),
    hread 2 2 (by omega) (by omega)]
  simp only [sobelGx, sobelGy, List.getD]
  norm_num

/-- Counterexample to C5 as stated: on the uniform 2×2 gray image of intensity
255 the Sobel output is NOT all zero — every pixel is a border pixel with a
partial (skipped-taps) stencil, and the computed magnitude is `6 * 255`,
clamped to 255. -/
theorem sobel_uniform_border_nonzero :
    sobel_edge_detection (.Gray 2 2 [255, 255, 255, 255]) =
      .ok (.Gray 2 2 [255, 255, 255, 255]) := by rfl

/-- C5 (amended): for every `Gray` image all of whose pixels have one and the
same intensity, `sobel_edge_detection` returns an image of the same
dimensions in which every interior pixel — one whose full 3×3 neighborhood
lies inside the image — is 0; border pixels can be nonzero because the
out-of-bounds taps of the stencil are skipped rather than renormalized. -/
theorem sobel_uniform_interior_zero (w h c : ℕ) (data : List ℕ)
    (hd : data.length = w * h) (hu : ∀ v ∈ data, v = c) :
    ∃ out, sobel_edge_detection (.Gray w h data) = .ok (.Gray w h out) ∧
      out.length = w * h ∧
      ∀ x y, 1 ≤ x → x + 1 < w → 1 ≤ y → y + 1 < h →
        out[y * w + x]? = some 0 := by
  refine ⟨mkGrid w (fun x y => sobelPixel w h data x y) h, ?_, mkGrid_length w _ h, ?_⟩
  · rw [sobel_edge_detection]
    exact if_pos (mkGrid_length w _ h)
  · intro x y hx1 hx2 hy1 hy2
    rw [mkGrid_getElem? w _ (by omega) (by omega),
      sobelPixel_uniform_interior w h c data hd hu x y hx1 hx2 hy1 hy2]

/-- Witness for C5 (amended): the uniform 3×3 image of intensity 7 has Sobel
value 0 at its (only) interior pixel `(1, 1)`. -/
theorem sobel_uniform_interior_zero_witness :
    ∃ out, sobel_edge_detection (.Gray 3 3 (List.replicate 9 7)) =
        .ok (.Gray 3 3 out) ∧
      out[1 * 3 + 1]? = some 0 := by
  obtain ⟨out, h1, _, h3⟩ :=
    sobel_uniform_interior_zero 3 3 7 (List.replicate 9 7) rfl (by decide)
  exact ⟨out, h1, h3 1 1 (by decide) (by decide) (by decide) (by decide)⟩

/-- The skipping accumulator loop of `convolve_1d` computes exactly the sum of
`source * kernel[i]` over the in-bounds taps (skipped taps contribute zero,
and nothing is renormalized). -/
theorem convAcc_eq_sum (w h : ℕ) (data : List ℕ) (kernel : List ℚ)
    (horizontal : Bool) (x y : ℕ) :
    convAcc w h data kernel horizontal x y =
      ∑ i ∈ Finset.range kernel.length,
        if 0 ≤ (convIdx horizontal x y ((kernel.length : Int) / 2) i).1 ∧
           0 ≤ (convIdx horizontal x y ((kernel.length : Int) / 2) i).2 ∧
           (convIdx horizontal x y ((kernel.length : Int) / 2) i).1 < (w : Int) ∧
           (convIdx horizontal x y ((kernel.length : Int) / 2) i).2 < (h : Int) then
          ((data.getD
            ((convIdx horizontal x y ((kernel.length : Int) / 2) i).2.toNat * w +
              (convIdx horizontal x y ((kernel.length : Int) / 2) i).1.toNat) 0 : ℕ) : ℚ)
            * kernel.getD i 0
        else 0 := by
  unfold convAcc
  exact (foldl_ite_sum _ _ kernel.length 0).trans (zero_add _)

/-- On a `Gray` input `convolve_1d` always succeeds with the row-major grid of
per-sample results (the rebuilt image passes the constructor check). -/
theorem convolve_1d_gray_ok (w h : ℕ) (data : List ℕ) (kernel : List ℚ)
    (horizontal : Bool) :
    convolve_1d (.Gray w h data) kernel horizontal =
      .ok (.Gray w h
        (mkGrid w (fun x y => convPixel w h data kernel horizontal x y) h)) := by
  rw [convolve_1d]
  exact if_pos (mkGrid_length _ _ _)

/-- C9: `gaussian_blur` is exactly two `convolve_1d` passes with its kernel,
and in each pass over a `Gray` image every output sample equals the sum of
`kernel[i] * source[pos + i - k]` taken only over taps whose source position
is inside the image bounds — out-of-bounds taps contribute nothing and the
remaining weights are not renormalized — with the sum then clamped to
`[0, 255]` and truncated to an integer before storage.  (`f32` arithmetic is
modelled as exact rational arithmetic; see the file header.) -/
theorem convolve_sample_formula :
    (∀ (fexp : ℚ → ℚ) (img : Image) (ksize : ℕ) (sigma : ℚ),
      gaussian_blur fexp img ksize sigma =
        match convolve_1d img (gaussianKernel fexp ksize sigma) true with
        | .ok tmp => convolve_1d tmp (gaussianKernel fexp ksize sigma) false
        | .error e => .error e) ∧
    (∀ (kernel : List ℚ) (w h : ℕ) (data : List ℕ) (horizontal : Bool),
      data.length = w * h →
      ∃ out, convolve_1d (.Gray w h data) kernel horizontal = .ok (.Gray w h out) ∧
        out.length = w * h ∧
        ∀ x y, x < w → y < h →
          out[y * w + x]? = some ((Int.floor (min (max
            (∑ i ∈ Finset.range kernel.length,
              if 0 ≤ (convIdx horizontal x y ((kernel.length : Int) / 2) i).1 ∧
                 0 ≤ (convIdx horizontal x y ((kernel.length : Int) / 2) i).2 ∧
                 (convIdx horizontal x y ((kernel.length : Int) / 2) i).1 < (w : Int) ∧
                 (convIdx horizontal x y ((kernel.length : Int) / 2) i).2 < (h : Int) then
                ((data.getD
                  ((convIdx horizontal x y ((kernel.length : Int) / 2) i).2.toNat * w +
                    (convIdx horizontal x y ((kernel.length : Int) / 2) i).1.toNat) 0 : ℕ) : ℚ)
                  * kernel.getD i 0
              else 0) 0) 255)).toNat)) := by
  refine ⟨fun fexp img ksize sigma => rfl, ?_⟩
  intro kernel w h data horizontal hd
  refine ⟨mkGrid w (fun x y => convPixel w h data kernel horizontal x y) h,
    convolve_1d_gray_ok w h data kernel horizontal, mkGrid_length w _ h, ?_⟩
  intro x y hx hy
  rw [mkGrid_getElem? w _ hx hy]
  unfold convPixel
  rw [convAcc_eq_sum]

/-- Witness for C9: the length-3 box kernel on the 1×1 image `[100]`,
horizontal pass, sample `(0, 0)`. -/
theorem convolve_sample_formula_witness :
    ∃ out, convolve_1d (.Gray 1 1 [100]) [1, 1, 1] true = .ok (.Gray 1 1 out) ∧
      out[0 * 1 + 0]? = some ((Int.floor (min (max
        (∑ i ∈ Finset.range ([1, 1, 1] : List ℚ).length,
          if 0 ≤ (convIdx true 0 0 ((([1, 1, 1] : List ℚ).length : Int) / 2) i).1 ∧
             0 ≤ (convIdx true 0 0 ((([1, 1, 1] : List ℚ).length : Int) / 2) i).2 ∧
             (convIdx true 0 0 ((([1, 1, 1] : List ℚ).length : Int) / 2) i).1 < ((1 : ℕ) : Int) ∧
             (convIdx true 0 0 ((([1, 1, 1] : List ℚ).length : Int) / 2) i).2 < ((1 : ℕ) : Int) then
            ((([100] : List ℕ).getD
              ((convIdx true 0 0 ((([1, 1, 1] : List ℚ).length : Int) / 2) i).2.toNat * 1 +
                (convIdx true 0 0 ((([1, 1, 1] : List ℚ).length : Int) / 2) i).1.toNat) 0 : ℕ) : ℚ)
              * ([1, 1, 1] : List ℚ).getD i 0
          else 0) 0) 255)).toNat) := by
  obtain ⟨out, h1, _, h3⟩ :=
    convolve_sample_formula.2 [1, 1, 1] 1 1 [100] true rfl
  exact ⟨out, h1, h3 0 0 (by decide) (by decide)⟩

/-- C10: `gaussian_blur` performs no validation that `ksize` is odd: for every
even `ksize` it does not fail on a `Gray` input, and the kernel it constructs
has `2 * (ksize / 2) + 1 = ksize + 1` taps — one more than requested — so an
even `ksize` silently behaves like the next larger odd kernel size.  This
holds for every model of the `f32` exponential. -/
theorem gaussian_blur_even_ksize (fexp : ℚ → ℚ) (ksize : ℕ) (sigma : ℚ)
    (he : ksize % 2 = 0) :
    (gaussianKernel fexp ksize sigma).length = 2 * (ksize / 2) + 1 ∧
    (gaussianKernel fexp ksize sigma).length = ksize + 1 ∧
    ∀ (w h : ℕ) (data : List ℕ), data.length = w * h →
      ∃ out, gaussian_blur fexp (.Gray w h data) ksize sigma =
        .ok (.Gray w h out) := by
  have hraw : (gaussianRawKernel fexp ksize sigma).length = 2 * (ksize / 2) + 1 := by
    unfold gaussianRawKernel
    rw [List.length_map, List.length_range]
  have hlen : (gaussianKernel fexp ksize sigma).length = 2 * (ksize / 2) + 1 := by
    unfold gaussianKernel
    rw [List.length_map, hraw]
  refine ⟨hlen, by omega, ?_⟩
  intro w h data hd
  rw [gaussian_blur, convolve_1d_gray_ok]
  exact ⟨_, convolve_1d_gray_ok w h _ _ false⟩

/-- Witness for C10: `ksize = 4` yields 5 taps and a successful blur of a 1×1
image. -/
theorem gaussian_blur_even_ksize_witness :
    (gaussianKernel (fun _ => 1) 4 1).length = 4 + 1 ∧
    ∃ out, gaussian_blur (fun _ => 1) (.Gray 1 1 [0]) 4 1 = .ok (.Gray 1 1 out) :=
  ⟨(gaussian_blur_even_ksize (fun _ => 1) 4 1 rfl).2.1,
   (gaussian_blur_even_ksize (fun _ => 1) 4 1 rfl).2.2 1 1 [0] rfl⟩
